import Mathlib

/-!
Verification development for the MultiStrat repository.

Shallow embedding of the analytical core of the repository:
* `app/services/allocation_service.py` — allocation blending
  (`AllocationService.optimize_allocation`, `_update_task_status`);
* `app/services/optimization_service.py` — signal generation, backtesting,
  optimization task flow (`_generate_signals`, `_run_backtest`,
  `run_optimization`, `_update_task_status`);
* `app/services/portfolio_service.py` — rebalancing trade caps
  (`rebalance_portfolio`).

Machine floats are modelled by exact rationals `ℚ`; the NaN values that
numpy produces on 0/0 divisions are modelled by `Option` (`none` = the
computation produced NaN); real-valued quantities that need `sqrt`
(the annualized Sharpe value) use `ℝ`.
-/

/-! ### Allocation service: metric extraction and weighting schemes

Embeds `AllocationService.optimize_allocation`
(`app/services/allocation_service.py`, lines 104-218).
Each active strategy contributes `metrics.get('total_return', 0.0)`,
`metrics.get('sharpe_ratio', 0.0)` and `metrics.get('max_drawdown', 0.0)`,
already default-filled here. -/

structure SMetrics where
  total_return : ℚ
  sharpe : ℚ
  max_drawdown : ℚ
  deriving DecidableEq

/-- `returns.append(metrics.get('total_return', 0.0))` (line 112). -/
def returnsList (ms : List SMetrics) : List ℚ :=
  ms.map (fun m => m.total_return)

/-- `sharpe_ratios.append(metrics.get('sharpe_ratio', 0.0))` (line 113). -/
def sharpeList (ms : List SMetrics) : List ℚ :=
  ms.map (fun m => m.sharpe)

/-- `risks.append(max(risk, 0.01))` (line 118): drawdown floored at 0.01. -/
def riskList (ms : List SMetrics) : List ℚ :=
  ms.map (fun m => max m.max_drawdown (1 / 100))

/-- The shift applied to vectors with a negative entry before weighting
(lines 139-140, 148-149, 163-164): `v - v.min() + 0.1` when `min < 0`. -/
def shiftList (l : List ℚ) : List ℚ :=
  match l.min? with
  | some m => if m < 0 then l.map (fun x => x - m + 1 / 10) else l
  | none => l

/-- `v / v.sum()`; numpy yields NaN on a zero sum of an all-zero vector,
modelled as `none`. -/
def normalizeOpt (l : List ℚ) : Option (List ℚ) :=
  if l.sum = 0 then none else some (l.map (fun x => x / l.sum))

/-- `equal_weight = np.ones(n) / n` (line 133). -/
def equalWeight (ms : List SMetrics) : List ℚ :=
  ms.map (fun _ => 1 / (ms.length : ℚ))

/-- `return_weighted` (lines 138-143). -/
def returnWeight (ms : List SMetrics) : Option (List ℚ) :=
  normalizeOpt (shiftList (returnsList ms))

/-- `sharpe_weighted` (lines 147-152). -/
def sharpeWeight (ms : List SMetrics) : Option (List ℚ) :=
  normalizeOpt (shiftList (sharpeList ms))

/-- `risk_parity = inv_risk / np.sum(inv_risk)` (lines 156-158). -/
def riskParityWeight (ms : List SMetrics) : Option (List ℚ) :=
  normalizeOpt ((riskList ms).map (fun r => 1 / r))

/-- `risk_adjusted` (lines 161-167): `returns / risks`, shift, normalize. -/
def riskAdjWeight (ms : List SMetrics) : Option (List ℚ) :=
  normalizeOpt (shiftList (List.zipWith (fun r k => r / k) (returnsList ms) (riskList ms)))

/-- NaN-propagating binary vector combination: numpy elementwise
arithmetic on a NaN vector yields NaN. -/
def omap2 (f : ℚ → ℚ → ℚ) : Option (List ℚ) → Option (List ℚ) → Option (List ℚ)
  | some a, some b => some (List.zipWith f a b)
  | _, _ => none

/-- The risk-tolerance blend of `optimize_allocation` (lines 179-190),
operating on the possibly-NaN candidate vectors. -/
def blendCodeO (rp sw ra : Option (List ℚ)) (rt : ℚ) : Option (List ℚ) :=
  if rt ≤ 1 / 4 then omap2 (fun a b => 3 / 4 * a + 1 / 4 * b) rp sw
  else if rt ≤ 1 / 2 then omap2 (fun a b => 1 / 2 * a + 1 / 2 * b) rp sw
  else if rt ≤ 3 / 4 then omap2 (fun a b => 1 / 2 * a + 1 / 2 * b) sw ra
  else omap2 (fun a b => 1 / 4 * a + 3 / 4 * b) sw ra

/-- `optimize_allocation` numeric core: blend then renormalize
(`final_allocation = final_allocation / np.sum(final_allocation)`, line 193). -/
def optimizeAllocation (ms : List SMetrics) (rt : ℚ) : Option (List ℚ) :=
  (blendCodeO (riskParityWeight ms) (sharpeWeight ms) (riskAdjWeight ms) rt).bind normalizeOpt

/-! ### Portfolio state for the allocation side effect

Embeds the read/update cycle of `optimize_allocation`
(`app/services/allocation_service.py`, lines 74-218): strategies are read
with their current allocation, activity flag and latest optimization
metrics (`none` models a strategy whose metrics dict is empty), the blended
weights are written back positionally to the active strategies. -/

structure PStrat where
  allocation : ℚ
  is_active : Bool
  metrics : Option SMetrics
  deriving DecidableEq

structure PortState where
  risk_tolerance : ℚ
  strategies : List PStrat
  deriving DecidableEq

/-- `active_strategies = [s for s in strategy_data if s['is_active'] and s['metrics']]`
(line 98). -/
def activeStrats (p : PortState) : List PStrat :=
  p.strategies.filter (fun s => s.is_active && s.metrics.isSome)

/-- The metric records of the active strategies, in order (lines 108-118). -/
def activeMetrics (p : PortState) : List SMetrics :=
  (activeStrats p).filterMap (fun s => s.metrics)

/-- The allocation vector `optimize_allocation` computes for a portfolio:
`none` models the `ValueError` raised when no active strategy has metrics
(line 101), and the NaN outcome of a degenerate weighting. -/
def computeAlloc (p : PortState) : Option (List ℚ) :=
  if activeStrats p = [] then none
  else optimizeAllocation (activeMetrics p) p.risk_tolerance

/-- `PortfolioRepository.update_strategy_allocation` applied in order to
the active strategies (lines 202-209): the i-th active strategy's stored
allocation is overwritten with the i-th blended weight. -/
def assignAllocs : List PStrat → List ℚ → List PStrat
  | [], _ => []
  | s :: rest, vs =>
    if s.is_active && s.metrics.isSome then
      match vs with
      | [] => s :: assignAllocs rest []
      | v :: vt => { s with allocation := v } :: assignAllocs rest vt
    else
      s :: assignAllocs rest vs

/-- One full run of `optimize_allocation`: computes the blended vector and
mutates the stored allocations; returns the new state and the vector. -/
def runAlloc (p : PortState) : Option (PortState × List ℚ) :=
  (computeAlloc p).map (fun v => ({ p with strategies := assignAllocs p.strategies v }, v))

/-! ### Blend rule, spec-side

Modelled from the spec: the blend rule of §4.4 stated with vector scaling
and addition, used only to compare against the code-side `blendCodeO`. -/

def vsmul (c : ℚ) (v : List ℚ) : List ℚ := v.map (fun x => c * x)

def vadd (a b : List ℚ) : List ℚ := List.zipWith (fun x y => x + y) a b

/-- Modelled from the spec: "≤0.25 → 0.75·risk_parity + 0.25·sharpe_weighted;
≤0.5 → 0.5·risk_parity + 0.5·sharpe_weighted; ≤0.75 → 0.5·sharpe_weighted +
0.5·risk_adjusted; >0.75 → 0.25·sharpe_weighted + 0.75·risk_adjusted",
boundaries belonging to the lower bracket. -/
def blendSpec (rp sw ra : List ℚ) (rt : ℚ) : List ℚ :=
  if rt ≤ 1 / 4 then vadd (vsmul (3 / 4) rp) (vsmul (1 / 4) sw)
  else if rt ≤ 1 / 2 then vadd (vsmul (1 / 2) rp) (vsmul (1 / 2) sw)
  else if rt ≤ 3 / 4 then vadd (vsmul (1 / 2) sw) (vsmul (1 / 2) ra)
  else vadd (vsmul (1 / 4) sw) (vsmul (3 / 4) ra)

/-! ### Signal generation

Embeds `OptimizationService._generate_signals`
(`app/services/optimization_service.py`, lines 489-530).  Pandas
`ewm(span, adjust=False).mean()`, `diff()`, `clip()` and
`rolling(window).mean()` are embedded index-wise; NaN cells of the RSI
pipeline are `none`. -/

structure SigParams where
  macd_fast : ℕ
  macd_slow : ℕ
  macd_signal : ℕ
  rsi_period : ℕ
  deriving DecidableEq

/-- Default parameter values merged by `run_optimization` (lines 36-62). -/
def defaultSigParams : SigParams := ⟨12, 26, 9, 14⟩

/-- Pandas `ewm(span=s, adjust=False)` smoothing factor `2/(s+1)`. -/
def ewmAlpha (span : ℕ) : ℚ := 2 / ((span : ℚ) + 1)

/-- `close.ewm(span, adjust=False).mean()` at bar `i`
(`e₀ = x₀`, `eᵢ = (1-α)·eᵢ₋₁ + α·xᵢ`). -/
def emaAt (span : ℕ) (close : List ℚ) : ℕ → ℚ
  | 0 => close.getD 0 0
  | i + 1 => (1 - ewmAlpha span) * emaAt span close i + ewmAlpha span * close.getD (i + 1) 0

/-- `macd = ema_fast - ema_slow` (line 514). -/
def macdAt (p : SigParams) (close : List ℚ) (i : ℕ) : ℚ :=
  emaAt p.macd_fast close i - emaAt p.macd_slow close i

/-- `macd_signal = macd.ewm(span=signal_period, adjust=False).mean()` (line 515). -/
def macdSigAt (p : SigParams) (close : List ℚ) : ℕ → ℚ
  | 0 => macdAt p close 0
  | i + 1 =>
    (1 - ewmAlpha p.macd_signal) * macdSigAt p close i
      + ewmAlpha p.macd_signal * macdAt p close (i + 1)

/-- `macd_hist = macd - macd_signal` (line 516). -/
def histAt (p : SigParams) (close : List ℚ) (i : ℕ) : ℚ :=
  macdAt p close i - macdSigAt p close i

/-- `delta = close.diff()`: NaN at bar 0. -/
def deltaAt (close : List ℚ) : ℕ → Option ℚ
  | 0 => none
  | i + 1 => some (close.getD (i + 1) 0 - close.getD i 0)

/-- `delta.clip(lower=0)` cell. -/
def gainAt (close : List ℚ) (i : ℕ) : Option ℚ :=
  (deltaAt close i).map (fun d => max d 0)

/-- `-delta.clip(upper=0)` cell. -/
def lossAt (close : List ℚ) (i : ℕ) : Option ℚ :=
  (deltaAt close i).map (fun d => max (-d) 0)

/-- Pandas `rolling(window=w).mean()` at index `i`: defined only when the
window fits (`w ≤ i+1`) and every cell in it is non-NaN. -/
def rollingMeanOpt (w : ℕ) (f : ℕ → Option ℚ) (i : ℕ) : Option ℚ :=
  if w ≤ i + 1 then
    let vals := (List.range w).map (fun k => f (i + 1 - w + k))
    if vals.all (fun o => o.isSome) then some ((vals.filterMap id).sum / (w : ℚ)) else none
  else none

/-- `rsi = 100 - 100/(1+rs)` with `rs = gain/loss` (lines 523-524);
`0/0` gives NaN (`none`), `g/0` with `g > 0` gives `+inf`, whence RSI 100. -/
def rsiAt (p : SigParams) (close : List ℚ) (i : ℕ) : Option ℚ :=
  match rollingMeanOpt p.rsi_period (gainAt close) i,
        rollingMeanOpt p.rsi_period (lossAt close) i with
  | some g, some l =>
    if l = 0 then (if g = 0 then none else some 100)
    else some (100 - 100 / (1 + g / l))
  | _, _ => none

/-- The sell-side RSI test `rsi < 30` (line 528); false on a NaN cell. -/
def rsiOversold (p : SigParams) (close : List ℚ) (i : ℕ) : Bool :=
  match rsiAt p close i with
  | some r => decide (r < 30)
  | none => false

/-- The signal cell (lines 527-528): `+1` where `macd_hist > 0`, `-1`
where `macd_hist < 0` and `rsi < 30`, else `0`. -/
def signalAt (p : SigParams) (close : List ℚ) (i : ℕ) : ℤ :=
  if 0 < histAt p close i then 1
  else if histAt p close i < 0 ∧ rsiOversold p close i = true then -1
  else 0

/-! ### Backtest

Embeds `OptimizationService._run_backtest` (lines 378-487). -/

inductive TSide where
  | buy
  | sell
  deriving DecidableEq

structure BTrade where
  side : TSide
  price : ℚ
  shares : ℚ
  deriving DecidableEq

structure BState where
  position : ℚ
  cash : ℚ
  trades : List BTrade
  values : List ℚ
  deriving DecidableEq

/-- One iteration of the loop `for i in range(1, len(signals))`
(lines 404-424): buy all-in when flat on `+1`, sell all on `-1` when long,
then append the bar's portfolio value. -/
def btStep (p : SigParams) (close : List ℚ) (st : BState) (i : ℕ) : BState :=
  let sig := signalAt p close i
  let price := close.getD i 0
  let st' :=
    if sig = 1 ∧ st.position = 0 then
      { st with position := st.cash / price, cash := 0,
                trades := st.trades ++ [⟨TSide.buy, price, st.cash / price⟩] }
    else if sig = -1 ∧ 0 < st.position then
      { st with cash := st.position * price, position := 0,
                trades := st.trades ++ [⟨TSide.sell, price, st.position⟩] }
    else st
  { st' with values := st'.values ++ [st'.cash + st'.position * price] }

/-- The trading loop, from `initial_capital = 10000.0`, `position = 0`. -/
def backtestCore (p : SigParams) (close : List ℚ) : BState :=
  (List.range' 1 (close.length - 1)).foldl (btStep p close) ⟨0, 10000, [], []⟩

/-- Alternation checker for trade sides: from flag `false` (flat) a `buy`
flips to `true` (long), from `true` a `sell` flips back; any other order is
invalid (`none`). -/
def runAlt : Bool → List TSide → Option Bool
  | b, [] => some b
  | false, TSide.buy :: r => runAlt true r
  | true, TSide.sell :: r => runAlt false r
  | _, _ => none

structure BMetrics where
  sharpe : ℝ
  total_return : ℝ
  max_drawdown : ℝ
  win_rate : ℝ

def zeroBMetrics : BMetrics := ⟨0, 0, 0, 0⟩

/-- `returns = np.diff(portfolio_value) / portfolio_value[:-1]` (line 438). -/
def retsOf (pv : List ℚ) : List ℚ :=
  List.zipWith (fun prev next => (next - prev) / prev) pv pv.tail

def meanQ (l : List ℚ) : ℚ := l.sum / (l.length : ℚ)

/-- Population variance, the square of `np.std`. -/
def varQ (l : List ℚ) : ℚ := ((l.map (fun x => (x - meanQ l) ^ 2)).sum) / (l.length : ℚ)

/-- `np.maximum.accumulate` given the running maximum so far. -/
def runMax : ℚ → List ℚ → List ℚ
  | _, [] => []
  | m, x :: r => max m x :: runMax (max m x) r

def listMax (l : List ℚ) : ℚ := l.foldl max (l.headD 0)

/-- The win/loss pairing loop over trades (lines 459-471). -/
def winCounts : Option ℚ → List BTrade → ℕ × ℕ
  | _, [] => (0, 0)
  | bp, t :: r =>
    match t.side with
    | TSide.buy => winCounts (some t.price) r
    | TSide.sell =>
      match bp with
      | some p0 =>
        let wl := winCounts none r
        if p0 < t.price then (wl.1 + 1, wl.2) else (wl.1, wl.2 + 1)
      | none => winCounts bp r

/-- `win_rate` (lines 455-474): 0 when no round trip closed. -/
def winRateOf (trades : List BTrade) : ℚ :=
  let wl := winCounts none trades
  if wl.1 + wl.2 = 0 then 0 else (wl.1 : ℚ) / ((wl.1 : ℚ) + (wl.2 : ℚ)) * 100

/-- `_run_backtest`: zero metrics when no portfolio value was recorded
(lines 427-435), otherwise the metric block of lines 437-483. -/
noncomputable def runBacktest (p : SigParams) (close : List ℚ) : BMetrics :=
  let st := backtestCore p close
  if st.values = [] then zeroBMetrics
  else
    let pv := st.values
    let rets := retsOf pv
    let tret : ℚ := (pv.getLastD 0 / 10000 - 1) * 100
    let shp : ℝ :=
      if rets ≠ [] ∧ 0 < varQ rets then
        ((meanQ rets : ℝ) / Real.sqrt ((varQ rets : ℚ) : ℝ)) * Real.sqrt 252
      else 0
    let cum := pv.map (fun x => x / 10000)
    let rm := runMax (cum.headD 0) cum
    let dd := List.zipWith (fun m c => (m - c) / m) rm cum
    ⟨shp, (tret : ℝ), ((listMax dd * 100 : ℚ) : ℝ), ((winRateOf st.trades : ℚ) : ℝ)⟩

/-! ### Rebalance trade caps

Embeds the cap block of `PortfolioService.rebalance_portfolio`
(`app/services/portfolio_service.py`, lines 448-481). -/

structure RTrade where
  asset_id : ℕ
  price : ℚ
  shares : ℚ
  value : ℚ
  deriving DecidableEq

/-- `trades_needed.sort(key=lambda t: abs(t["value"]), reverse=True)` (line 449). -/
def sortTradesDesc (ts : List RTrade) : List RTrade :=
  ts.insertionSort (fun a b => |b.value| ≤ |a.value|)

instance : IsTotal RTrade (fun a b => |b.value| ≤ |a.value|) :=
  ⟨fun _ _ => le_total _ _⟩

instance : IsTrans RTrade (fun a b => |b.value| ≤ |a.value|) :=
  ⟨fun _ _ _ h1 h2 => le_trans h2 h1⟩

/-- The proportional scale-down of the crossing trade (lines 474-477). -/
def scaleTrade (r : ℚ) (t : RTrade) : RTrade :=
  { t with shares := t.shares * r, value := t.value * r }

/-- The `trade_limit_pct` accumulation loop (lines 462-479). -/
def limitTrades (maxV : ℚ) : ℚ → List RTrade → List RTrade
  | _, [] => []
  | cum, t :: rest =>
    if cum + |t.value| ≤ maxV then t :: limitTrades maxV (cum + |t.value|) rest
    else if 0 < maxV - cum then [scaleTrade ((maxV - cum) / |t.value|) t]
    else []

def sumAbsVal (ts : List RTrade) : ℚ := (ts.map (fun t => |t.value|)).sum

/-- The two optional caps (lines 456-481): `max_trades` truncates when
present and `> 0` (Python truthiness skips `0` and `None`);
`trade_limit_pct` caps cumulative value when present and `> 0`. -/
def applyTradeCaps (max_trades : Option ℤ) (trade_limit_pct : Option ℚ)
    (total_value : ℚ) (ts : List RTrade) : List RTrade :=
  let ts1 :=
    match max_trades with
    | some n => if 0 < n then ts.take n.toNat else ts
    | none => ts
  match trade_limit_pct with
  | some pct => if 0 < pct then limitTrades (total_value * (pct / 100)) 0 ts1 else ts1
  | none => ts1

/-- Sorted trades followed by the value cap, as `rebalance_portfolio`
chains them for a positive `trade_limit_pct` with no `max_trades`. -/
def rebalanceCapTrades (total_value pct : ℚ) (ts : List RTrade) : List RTrade :=
  limitTrades (total_value * (pct / 100)) 0 (sortTradesDesc ts)

/-! ### Task status store

Embeds `_update_task_status` (`optimization_service.py` lines 545-559 and
the identical `allocation_service.py` lines 307-321): a dict field is
overwritten only when the incoming value is not `None` or the key is
absent.  Stored values are `Option FVal` so that the store can hold a
literal `None` for a fresh key. -/

inductive FVal where
  | s (x : String)
  | q (x : ℚ)
  | n (x : ℕ)
  deriving DecidableEq

/-- `existing[key] = value`. -/
def setField (m : List (String × Option FVal)) (k : String) (v : Option FVal) :
    List (String × Option FVal) :=
  match m with
  | [] => [(k, v)]
  | (k', v') :: r => if k' = k then (k, v) :: r else (k', v') :: setField r k v

/-- `for key, value in status.items(): if value is not None or key not in
existing: existing[key] = value`. -/
def updTaskStatus (existing upd : List (String × Option FVal)) :
    List (String × Option FVal) :=
  upd.foldl
    (fun m kv => if kv.2.isSome ∨ m.lookup kv.1 = none then setField m kv.1 kv.2 else m)
    existing

/-- The `'running'` status dict written at task start (lines 133-141). -/
def runningUpd (sid start : ℕ) : List (String × Option FVal) :=
  [("strategy_id", some (FVal.n sid)), ("status", some (FVal.s "running")),
   ("progress", some (FVal.q 0)), ("started_at", some (FVal.n start)),
   ("finished_at", none), ("error", none)]

/-- The `'completed'` status dict (lines 344-352): `started_at` is `None`
("Keep existing value"), `error` is `None`. -/
def completedUpd (sid fin : ℕ) : List (String × Option FVal) :=
  [("strategy_id", some (FVal.n sid)), ("status", some (FVal.s "completed")),
   ("progress", some (FVal.q 1)), ("started_at", none),
   ("finished_at", some (FVal.n fin)), ("error", none)]

/-- The `'failed'` status dict (lines 366-374): `started_at` is `None`. -/
def failedUpd (sid fin : ℕ) (err : String) : List (String × Option FVal) :=
  [("strategy_id", some (FVal.n sid)), ("status", some (FVal.s "failed")),
   ("progress", some (FVal.q 0)), ("started_at", none),
   ("finished_at", some (FVal.n fin)), ("error", some (FVal.s err))]

/-! ### Optimization entry validation

Embeds the lookup prefix of `OptimizationService.run_optimization`
(lines 143-163): strategy lookup, per-id asset lookup keeping only the
found ones, the `No valid assets` error, then the market-data guard. -/

def runOptValidation {σ α : Type} (strat : Option σ) (store : ℕ → Option α)
    (ids : List ℕ) (marketOk : Bool) : Except String (List α) :=
  match strat with
  | none => Except.error "Strategy not found"
  | some _ =>
    let assets := ids.filterMap store
    if assets.isEmpty then Except.error "No valid assets found for optimization"
    else if marketOk then Except.ok assets
    else Except.error "No market data available for optimization"

/-- The status recorded when `run_optimization` returns or raises
(lines 343-376): `completed` on success, `failed` on any exception. -/
def finalTaskStatus {ε β : Type} (r : Except ε β) : String :=
  match r with
  | Except.error _ => "failed"
  | Except.ok _ => "completed"

/-! ### Lemmas: allocation weighting -/

theorem sum_map_div (l : List ℚ) (s : ℚ) : (l.map fun x => x / s).sum = l.sum / s := by
  induction l with
  | nil => simp
  | cons a t ih => simp [ih, add_div]

theorem zipWith_nonneg {f : ℚ → ℚ → ℚ} (hf : ∀ a b, 0 ≤ a → 0 ≤ b → 0 ≤ f a b) :
    ∀ (l1 l2 : List ℚ), (∀ x ∈ l1, 0 ≤ x) → (∀ x ∈ l2, 0 ≤ x) →
      ∀ x ∈ List.zipWith f l1 l2, 0 ≤ x
  | [], _, _, _ => by simp
  | _ :: _, [], _, _ => by simp
  | a :: l1, b :: l2, h1, h2 => by
    simp only [List.zipWith_cons_cons, List.mem_cons]
    rintro x (rfl | hx)
    · exact hf a b (h1 a (by simp)) (h2 b (by simp))
    · exact zipWith_nonneg hf l1 l2 (fun y hy => h1 y (by simp [hy]))
        (fun y hy => h2 y (by simp [hy])) x hx

theorem shiftList_nonneg (l : List ℚ) : ∀ x ∈ shiftList l, 0 ≤ x := by
  unfold shiftList
  cases hm : l.min? with
  | none =>
    intro x hx
    simp [List.min?_eq_none_iff.mp hm] at hx
  | some m =>
    have hmle : ∀ b ∈ l, m ≤ b := fun b hb =>
      (List.le_min?_iff (fun _ _ _ => le_min_iff) hm).mp (le_refl m) b hb
    by_cases h : m < 0
    · simp only [if_pos h]
      intro x hx
      obtain ⟨y, hy, rfl⟩ := List.mem_map.mp hx
      have := hmle y hy
      linarith
    · simp only [if_neg h]
      intro x hx
      have := hmle x hx
      linarith

theorem normalizeOpt_spec {l v : List ℚ} (h : normalizeOpt l = some v)
    (hn : ∀ x ∈ l, 0 ≤ x) : v.sum = 1 ∧ ∀ x ∈ v, 0 ≤ x := by
  unfold normalizeOpt at h
  by_cases hs : l.sum = 0
  · simp [hs] at h
  · simp only [if_neg hs, Option.some.injEq] at h
    subst h
    have hpos : 0 < l.sum := lt_of_le_of_ne (List.sum_nonneg hn) (Ne.symm hs)
    refine ⟨?_, ?_⟩
    · rw [sum_map_div, div_self hs]
    · intro x hx
      obtain ⟨y, hy, rfl⟩ := List.mem_map.mp hx
      exact div_nonneg (hn y hy) hpos.le

theorem riskList_inv_nonneg (ms : List SMetrics) :
    ∀ x ∈ (riskList ms).map (fun r => 1 / r), 0 ≤ x := by
  intro x hx
  obtain ⟨r, hr, rfl⟩ := List.mem_map.mp hx
  obtain ⟨m, _, rfl⟩ := List.mem_map.mp hr
  have h1 : (0 : ℚ) < max m.max_drawdown (1 / 100) :=
    lt_of_lt_of_le (by norm_num) (le_max_right _ _)
  positivity

theorem omap2_eq_some {f : ℚ → ℚ → ℚ} {x y : Option (List ℚ)} {z : List ℚ}
    (h : omap2 f x y = some z) :
    ∃ a b, x = some a ∧ y = some b ∧ z = List.zipWith f a b := by
  cases x with
  | none => simp [omap2] at h
  | some a =>
    cases y with
    | none => simp [omap2] at h
    | some b =>
      simp only [omap2, Option.some.injEq] at h
      exact ⟨a, b, rfl, rfl, h.symm⟩

theorem sharpeWeight_nonneg {ms : List SMetrics} {v : List ℚ}
    (h : sharpeWeight ms = some v) : ∀ x ∈ v, 0 ≤ x :=
  (normalizeOpt_spec h (shiftList_nonneg _)).2

theorem riskAdjWeight_nonneg {ms : List SMetrics} {v : List ℚ}
    (h : riskAdjWeight ms = some v) : ∀ x ∈ v, 0 ≤ x :=
  (normalizeOpt_spec h (shiftList_nonneg _)).2

theorem riskParityWeight_nonneg {ms : List SMetrics} {v : List ℚ}
    (h : riskParityWeight ms = some v) : ∀ x ∈ v, 0 ≤ x :=
  (normalizeOpt_spec h (riskList_inv_nonneg ms)).2

theorem blendCodeO_nonneg {ms : List SMetrics} {rt : ℚ} {b : List ℚ}
    (hb : blendCodeO (riskParityWeight ms) (sharpeWeight ms) (riskAdjWeight ms) rt = some b) :
    ∀ x ∈ b, 0 ≤ x := by
  unfold blendCodeO at hb
  split_ifs at hb <;>
    obtain ⟨a, c, ha, hc, rfl⟩ := omap2_eq_some hb
  · exact zipWith_nonneg
      (fun p q hp hq => by nlinarith) a c
      (riskParityWeight_nonneg ha) (sharpeWeight_nonneg hc)
  · exact zipWith_nonneg
      (fun p q hp hq => by nlinarith) a c
      (riskParityWeight_nonneg ha) (sharpeWeight_nonneg hc)
  · exact zipWith_nonneg
      (fun p q hp hq => by nlinarith) a c
      (sharpeWeight_nonneg ha) (riskAdjWeight_nonneg hc)
  · exact zipWith_nonneg
      (fun p q hp hq => by nlinarith) a c
      (sharpeWeight_nonneg ha) (riskAdjWeight_nonneg hc)

/-- Claim C1 (amended): whenever `optimize_allocation` produces a target
allocation vector at all (no NaN arises in the weighting pipeline), that
vector sums to exactly 1 and every component is nonnegative. -/
theorem optimizeAllocation_sum_one (ms : List SMetrics) (rt : ℚ) (v : List ℚ)
    (h : optimizeAllocation ms rt = some v) :
    v.sum = 1 ∧ ∀ x ∈ v, 0 ≤ x := by
  unfold optimizeAllocation at h
  obtain ⟨b, hb, hnorm⟩ := Option.bind_eq_some.mp h
  exact normalizeOpt_spec hnorm (blendCodeO_nonneg hb)

/-- Claim C1 witness: a portfolio of one strategy with metrics
(return 0.1, sharpe 1, drawdown 0.05) at risk tolerance 0.9 gets the
vector `[1]`, which sums to 1 with nonnegative components. -/
theorem optimizeAllocation_sum_one_witness :
    optimizeAllocation [⟨1 / 10, 1, 1 / 20⟩] (9 / 10) = some [1] ∧
      (([1] : List ℚ).sum = 1 ∧ ∀ x ∈ ([1] : List ℚ), 0 ≤ x) := by
  have h : optimizeAllocation [⟨1 / 10, 1, 1 / 20⟩] (9 / 10) = some [1] := by
    norm_num [optimizeAllocation, blendCodeO, riskParityWeight, sharpeWeight, riskAdjWeight,
      normalizeOpt, shiftList, sharpeList, riskList, returnsList, omap2]
  exact ⟨h, optimizeAllocation_sum_one _ _ _ h⟩

/-- Claim C1 counterexample: with one active strategy whose metrics are
all zero (a valid metrics record) and risk tolerance 0, the sharpe-weight
denominator is zero, numpy produces NaN, and no valid unit-sum vector is
returned — the claim as stated fails at this input. -/
theorem optimizeAllocation_zero_metrics_fails :
    ¬ ∃ v : List ℚ, optimizeAllocation [⟨0, 0, 0⟩] 0 = some v ∧
      v.sum = 1 ∧ ∀ x ∈ v, 0 ≤ x := by
  have hnone : optimizeAllocation [⟨0, 0, 0⟩] 0 = none := by
    norm_num [optimizeAllocation, blendCodeO, riskParityWeight, sharpeWeight, riskAdjWeight,
      normalizeOpt, shiftList, sharpeList, riskList, returnsList, omap2]
  rintro ⟨v, hv, -⟩
  rw [hnone] at hv
  exact Option.noConfusion hv

/-- Claim C7: for every risk tolerance the pre-normalization blend computed
by the code equals the spec-side piecewise formula, with boundary values
falling into the lower bracket. -/
theorem blendCode_eq_blendSpec (rp sw ra : List ℚ) (rt : ℚ) :
    blendCodeO (some rp) (some sw) (some ra) rt = some (blendSpec rp sw ra rt) := by
  unfold blendCodeO blendSpec vadd vsmul omap2
  split_ifs <;> simp [List.zipWith_map]

/-! ### Lemmas: allocation idempotence -/

theorem assignAllocs_filter_metrics : ∀ (l : List PStrat) (v : List ℚ),
    ((assignAllocs l v).filter (fun s => s.is_active && s.metrics.isSome)).filterMap
        (fun s => s.metrics)
      = (l.filter (fun s => s.is_active && s.metrics.isSome)).filterMap (fun s => s.metrics)
  | [], _ => by simp [assignAllocs]
  | s :: rest, vs => by
    by_cases hc : (s.is_active && s.metrics.isSome) = true
    · have ha : s.is_active = true := by
        revert hc
        cases s.is_active <;> simp
      cases hm : s.metrics with
      | none =>
        rw [hm] at hc
        simp at hc
      | some m =>
        cases vs with
        | nil =>
          simp only [assignAllocs, if_pos hc]
          simp [List.filter_cons, ha, hm, List.filterMap_cons,
            assignAllocs_filter_metrics rest []]
        | cons w vt =>
          simp only [assignAllocs, if_pos hc]
          simp [List.filter_cons, ha, hm, List.filterMap_cons,
            assignAllocs_filter_metrics rest vt]
    · simp only [assignAllocs, if_neg hc]
      simp only [List.filter_cons, hc, Bool.false_eq_true, if_false,
        if_neg]
      simp [assignAllocs_filter_metrics rest vs]

theorem assignAllocs_filter_empty : ∀ (l : List PStrat) (v : List ℚ),
    ((assignAllocs l v).filter (fun s => s.is_active && s.metrics.isSome)) = [] ↔
      (l.filter (fun s => s.is_active && s.metrics.isSome)) = []
  | [], _ => by simp [assignAllocs]
  | s :: rest, vs => by
    by_cases hc : (s.is_active && s.metrics.isSome) = true
    · have ha : s.is_active = true := by
        revert hc
        cases s.is_active <;> simp
      cases hm : s.metrics with
      | none =>
        rw [hm] at hc
        simp at hc
      | some m =>
        cases vs with
        | nil =>
          simp only [assignAllocs, if_pos hc]
          simp [List.filter_cons, ha, hm]
        | cons w vt =>
          simp only [assignAllocs, if_pos hc]
          simp [List.filter_cons, ha, hm]
    · simp only [assignAllocs, if_neg hc]
      simp only [List.filter_cons, hc, Bool.false_eq_true, if_false, if_neg]
      exact assignAllocs_filter_empty rest vs

/-- Claim C8: running `optimize_allocation` a second time on the state the
first run produced (stored allocations overwritten, metrics and risk
tolerance untouched) returns the identical target allocation vector. -/
theorem runAlloc_idempotent (p p1 : PortState) (v : List ℚ)
    (h : runAlloc p = some (p1, v)) : ∃ p2, runAlloc p1 = some (p2, v) := by
  unfold runAlloc at h
  obtain ⟨w, hw, heq⟩ := Option.map_eq_some'.mp h
  injection heq with h1 h2
  subst h1
  subst h2
  have hcomp : computeAlloc (PortState.mk p.risk_tolerance (assignAllocs p.strategies w))
      = computeAlloc p := by
    simp only [computeAlloc, activeMetrics, activeStrats,
      assignAllocs_filter_metrics, assignAllocs_filter_empty]
  unfold runAlloc
  rw [hcomp, hw]
  exact ⟨_, rfl⟩

set_option maxHeartbeats 1000000 in
/-- Claim C8 witness: a one-strategy portfolio at risk tolerance 0; the
first run yields `[1]` and overwrites the stored allocation, the second
run yields `[1]` again. -/
theorem runAlloc_idempotent_witness :
    runAlloc ⟨0, [⟨1 / 2, true, some ⟨1 / 10, 1, 1 / 20⟩⟩]⟩
        = some (⟨0, [⟨1, true, some ⟨1 / 10, 1, 1 / 20⟩⟩]⟩, [1]) ∧
      ∃ p2, runAlloc ⟨0, [⟨1, true, some ⟨1 / 10, 1, 1 / 20⟩⟩]⟩ = some (p2, [1]) := by
  have h : runAlloc ⟨0, [⟨1 / 2, true, some ⟨1 / 10, 1, 1 / 20⟩⟩]⟩
      = some (⟨0, [⟨1, true, some ⟨1 / 10, 1, 1 / 20⟩⟩]⟩, [1]) := by
    norm_num [runAlloc, computeAlloc, activeStrats, activeMetrics, assignAllocs,
      optimizeAllocation, blendCodeO, riskParityWeight, sharpeWeight, riskAdjWeight,
      normalizeOpt, shiftList, sharpeList, riskList, returnsList, omap2,
      List.filterMap_cons, List.filter_cons]
  exact ⟨h, runAlloc_idempotent _ _ _ h⟩

/-! ### Lemmas: signal warm-up -/

theorem rollingMean_gain_warmup (close : List ℚ) (w i : ℕ) (h : i < w) :
    rollingMeanOpt w (gainAt close) i = none := by
  unfold rollingMeanOpt
  by_cases hw : w ≤ i + 1
  · rw [if_pos hw]
    have hall : ((List.range w).map (fun k => gainAt close (i + 1 - w + k))).all
        (fun o => o.isSome) = false := by
      rw [List.all_eq_false]
      refine ⟨none, ?_, by simp⟩
      refine List.mem_map.mpr ⟨0, List.mem_range.mpr (by omega), ?_⟩
      have h0 : i + 1 - w + 0 = 0 := by omega
      rw [h0]
      rfl
    simp [hall]
  · rw [if_neg hw]

theorem rsiAt_warmup (p : SigParams) (close : List ℚ) (i : ℕ) (h : i < p.rsi_period) :
    rsiAt p close i = none := by
  rcases hl : rollingMeanOpt p.rsi_period (lossAt close) i with _ | l <;>
    simp [rsiAt, rollingMean_gain_warmup close p.rsi_period i h, hl]

theorem rsiOversold_warmup (p : SigParams) (close : List ℚ) (i : ℕ)
    (h : i < p.rsi_period) : rsiOversold p close i = false := by
  simp [rsiOversold, rsiAt_warmup p close i h]

/-- Claim C2 (amended): during the warm-up window (bar index below
`rsi_period`, the only rolling window this generator uses) no sell signal
(-1) is ever emitted, because the RSI cell is NaN there; buy signals are
not suppressed during warm-up. -/
theorem no_sell_in_warmup (p : SigParams) (close : List ℚ) (i : ℕ)
    (h : i < p.rsi_period) : signalAt p close i ≠ -1 := by
  unfold signalAt
  have hro := rsiOversold_warmup p close i h
  split_ifs with h1 h2
  · decide
  · rw [hro] at h2
    exact absurd h2.2 (by simp)
  · decide

/-- Claim C2 witness: bar 1 is inside the default warm-up window and
indeed carries no sell signal on the series [1, 2]. -/
theorem no_sell_in_warmup_witness :
    1 < defaultSigParams.rsi_period ∧ signalAt defaultSigParams [1, 2] 1 ≠ -1 :=
  ⟨by norm_num [defaultSigParams], no_sell_in_warmup _ _ _ (by norm_num [defaultSigParams])⟩

/-- Claim C2 counterexample: with the default parameters on close series
[1, 2] a buy (+1) is emitted at bar 1, inside the warm-up window
(1 < rsi_period = 14): the claim that no non-zero signal appears during
warm-up is false. -/
theorem warmup_buy_cex :
    ¬ ∀ i, i < defaultSigParams.rsi_period → signalAt defaultSigParams [1, 2] i = 0 := by
  intro hall
  have h1 : signalAt defaultSigParams [1, 2] 1 = 1 := by
    norm_num [signalAt, histAt, macdAt, macdSigAt, emaAt, ewmAlpha, defaultSigParams]
  have h0 := hall 1 (by norm_num [defaultSigParams])
  rw [h1] at h0
  exact one_ne_zero h0

/-! ### Lemmas: backtest degenerate input and trade gating -/

/-- Claim C3: on a price series with fewer than 2 bars the trading loop
body never runs, so the backtest returns the all-zero metrics record
(the embedding is total: no exception path exists). -/
theorem runBacktest_short (p : SigParams) (close : List ℚ) (h : close.length < 2) :
    runBacktest p close = zeroBMetrics := by
  have h0 : close.length - 1 = 0 := by omega
  unfold runBacktest backtestCore
  rw [h0]
  norm_num [List.range']

/-- Claim C3 witness: the empty price series yields the zero metrics. -/
theorem runBacktest_short_witness :
    ([] : List ℚ).length < 2 ∧ runBacktest defaultSigParams [] = zeroBMetrics :=
  ⟨by norm_num, runBacktest_short _ _ (by norm_num)⟩

/-- Claim C6 counterexample: on close series [1, 2, 3] the generator emits
+1 at bar 1 and again at bar 2 with no -1 strictly between them, so the
emitted signal sequence is not position-gated. -/
theorem signals_not_gated_cex :
    signalAt defaultSigParams [1, 2, 3] 1 = 1 ∧
      signalAt defaultSigParams [1, 2, 3] 2 = 1 ∧
      ¬ ∃ k, 1 < k ∧ k < 2 ∧ signalAt defaultSigParams [1, 2, 3] k = -1 := by
  refine ⟨?_, ?_, ?_⟩
  · norm_num [signalAt, histAt, macdAt, macdSigAt, emaAt, ewmAlpha, defaultSigParams]
  · norm_num [signalAt, histAt, macdAt, macdSigAt, emaAt, ewmAlpha, defaultSigParams]
  · rintro ⟨k, hk1, hk2, -⟩
    omega

theorem runAlt_append_single :
    ∀ (l : List TSide) (b c : Bool) (s : TSide), runAlt b l = some c →
      runAlt b (l ++ [s]) = runAlt c [s]
  | [], b, c, s, h => by
    simp only [runAlt, Option.some.injEq] at h
    subst h
    rfl
  | t :: r, b, c, s, h => by
    match b, t with
    | false, TSide.buy =>
      simp only [runAlt] at h
      simpa only [List.cons_append, runAlt] using runAlt_append_single r true c s h
    | true, TSide.sell =>
      simp only [runAlt] at h
      simpa only [List.cons_append, runAlt] using runAlt_append_single r false c s h
    | false, TSide.sell => simp [runAlt] at h
    | true, TSide.buy => simp [runAlt] at h

theorem btFold_alternation (p : SigParams) (close : List ℚ) (hpos : ∀ c ∈ close, 0 < c) :
    ∀ (l : List ℕ), (∀ i ∈ l, i < close.length) → ∀ st : BState,
      ((runAlt false (st.trades.map (fun t => t.side)) = some true ∧
          0 < st.position ∧ st.cash = 0) ∨
        (runAlt false (st.trades.map (fun t => t.side)) = some false ∧
          st.position = 0 ∧ 0 < st.cash)) →
      ((runAlt false ((l.foldl (btStep p close) st).trades.map (fun t => t.side)) = some true ∧
          0 < (l.foldl (btStep p close) st).position ∧
          (l.foldl (btStep p close) st).cash = 0) ∨
        (runAlt false ((l.foldl (btStep p close) st).trades.map (fun t => t.side)) = some false ∧
          (l.foldl (btStep p close) st).position = 0 ∧
          0 < (l.foldl (btStep p close) st).cash))
  | [], _, st, hInv => hInv
  | i :: r, hmem, st, hInv => by
    rw [List.foldl_cons]
    refine btFold_alternation p close hpos r
      (fun j hj => hmem j (List.mem_cons_of_mem _ hj)) _ ?_
    have hi : i < close.length := hmem i (List.mem_cons_self _ _)
    have hip : 0 < close.getD i 0 := by
      have hg : close.getD i 0 = close.get ⟨i, hi⟩ := by
        simp [List.getD_eq_getElem?_getD, List.getElem?_eq_getElem hi]
      rw [hg]
      exact hpos _ (List.get_mem close i hi)
    rcases hInv with ⟨hAlt, hpos0, hcash⟩ | ⟨hAlt, hpos0, hcash⟩
    · by_cases hbuy : signalAt p close i = 1 ∧ st.position = 0
      · exact absurd hbuy.2 (ne_of_gt hpos0)
      · by_cases hsell : signalAt p close i = -1 ∧ 0 < st.position
        · simp only [btStep, if_neg hbuy, if_pos hsell, List.map_append,
            List.map_cons, List.map_nil]
          refine Or.inr ⟨?_, by trivial, mul_pos hpos0 hip⟩
          rw [runAlt_append_single _ _ _ _ hAlt]
          rfl
        · simp only [btStep, if_neg hbuy, if_neg hsell]
          exact Or.inl ⟨hAlt, hpos0, hcash⟩
    · by_cases hbuy : signalAt p close i = 1 ∧ st.position = 0
      · simp only [btStep, if_pos hbuy, List.map_append, List.map_cons, List.map_nil]
        refine Or.inl ⟨?_, div_pos hcash hip, by trivial⟩
        rw [runAlt_append_single _ _ _ _ hAlt]
        rfl
      · by_cases hsell : signalAt p close i = -1 ∧ 0 < st.position
        · exact absurd hsell.2 (by rw [hpos0]; exact lt_irrefl 0)
        · simp only [btStep, if_neg hbuy, if_neg hsell]
          exact Or.inr ⟨hAlt, hpos0, hcash⟩

/-- Claim C6 (amended): position gating lives in the backtest trade loop,
not in the signal series: over any positively-priced close series the
executed trades strictly alternate buy/sell starting from flat (a buy
executes only while flat, a sell only while long). -/
theorem backtest_trades_alternate (p : SigParams) (close : List ℚ)
    (hpos : ∀ c ∈ close, 0 < c) :
    ∃ b, runAlt false ((backtestCore p close).trades.map (fun t => t.side)) = some b := by
  unfold backtestCore
  have hmem : ∀ i ∈ List.range' 1 (close.length - 1), i < close.length := by
    intro i hi
    have := List.mem_range'_1.mp hi
    omega
  rcases btFold_alternation p close hpos _ hmem ⟨0, 10000, [], []⟩
      (Or.inr ⟨rfl, rfl, by norm_num⟩) with ⟨h, -, -⟩ | ⟨h, -, -⟩
  · exact ⟨true, h⟩
  · exact ⟨false, h⟩

/-- Claim C6 witness: on the series [1, 2, 3] (positive prices) the
executed trades are a single buy, a valid alternation from flat. -/
theorem backtest_trades_alternate_witness :
    ∃ b, runAlt false ((backtestCore defaultSigParams [1, 2, 3]).trades.map
      (fun t => t.side)) = some b :=
  backtest_trades_alternate defaultSigParams [1, 2, 3] (by norm_num)

/-! ### Lemmas: rebalance trade caps -/

theorem sumAbsVal_nil : sumAbsVal [] = 0 := rfl

theorem sumAbsVal_cons (t : RTrade) (l : List RTrade) :
    sumAbsVal (t :: l) = |t.value| + sumAbsVal l := by
  simp [sumAbsVal]

theorem limitTrades_sumAbs : ∀ (ts : List RTrade) (maxV cum : ℚ), cum ≤ maxV →
    sumAbsVal (limitTrades maxV cum ts) ≤ maxV - cum
  | [], maxV, cum, h => by
    simpa [limitTrades, sumAbsVal] using sub_nonneg.mpr h
  | t :: rest, maxV, cum, h => by
    by_cases hc : cum + |t.value| ≤ maxV
    · have ih := limitTrades_sumAbs rest maxV (cum + |t.value|) hc
      simp only [limitTrades, if_pos hc, sumAbsVal_cons]
      linarith
    · simp only [limitTrades, if_neg hc]
      by_cases hr : 0 < maxV - cum
      · have hv : 0 < |t.value| := by
          have := abs_nonneg t.value
          by_contra hv0
          push_neg at hv0
          have : |t.value| = 0 := le_antisymm hv0 (abs_nonneg _)
          apply hc
          linarith
      -- sum of the single scaled trade equals maxV - cum
        have hval : |t.value * ((maxV - cum) / |t.value|)| = maxV - cum := by
          rw [abs_mul, abs_div, abs_abs, abs_of_pos hr]
          field_simp
        simp only [if_pos hr, sumAbsVal_cons, sumAbsVal_nil, scaleTrade, hval]
        linarith
      · simp only [if_neg hr, sumAbsVal_nil]
        linarith

theorem limitTrades_struct : ∀ (ts : List RTrade) (maxV cum : ℚ), cum ≤ maxV →
    (∃ k, limitTrades maxV cum ts = ts.take k) ∨
    (∃ k r, 0 < r ∧
      limitTrades maxV cum ts = ts.take k ++ [scaleTrade r (ts.getD k ⟨0, 0, 0, 0⟩)] ∧
      sumAbsVal (limitTrades maxV cum ts) = maxV - cum)
  | [], maxV, cum, _ => Or.inl ⟨0, rfl⟩
  | t :: rest, maxV, cum, h => by
    by_cases hc : cum + |t.value| ≤ maxV
    · rcases limitTrades_struct rest maxV (cum + |t.value|) hc with ⟨k, hk⟩ | ⟨k, r, hr, hk, hsum⟩
      · refine Or.inl ⟨k + 1, ?_⟩
        simp only [limitTrades, if_pos hc, List.take_succ_cons, hk]
      · refine Or.inr ⟨k + 1, r, hr, ?_, ?_⟩
        · simp only [limitTrades, if_pos hc, List.take_succ_cons, List.cons_append, hk,
            List.getD_cons_succ]
        · simp only [limitTrades, if_pos hc, sumAbsVal_cons, hsum]
          ring
    · by_cases hr : 0 < maxV - cum
      · have hv : 0 < |t.value| := by
          by_contra hv0
          push_neg at hv0
          have : |t.value| = 0 := le_antisymm hv0 (abs_nonneg _)
          apply hc
          linarith
        refine Or.inr ⟨0, (maxV - cum) / |t.value|, div_pos hr hv, ?_, ?_⟩
        · simp only [limitTrades, if_neg hc, if_pos hr, List.take_zero, List.nil_append,
            List.getD_cons_zero]
        · have hval : |t.value * ((maxV - cum) / |t.value|)| = maxV - cum := by
            rw [abs_mul, abs_div, abs_abs, abs_of_pos hr]
            field_simp
          simp only [limitTrades, if_neg hc, if_pos hr, sumAbsVal_cons, sumAbsVal_nil,
            scaleTrade, hval]
          ring
      · refine Or.inl ⟨0, ?_⟩
        simp only [limitTrades, if_neg hc, if_neg hr, List.take_zero]

/-- Claim C5: with a positive `trade_limit_pct`, the returned trades'
absolute dollar values sum to at most `total_value * trade_limit_pct/100`
(exactly, in rational arithmetic); the trades are consumed in descending
order of absolute value (the sorted list), the output is a prefix of that
order possibly followed by one proportionally scaled copy of the crossing
trade which makes the cumulative value exactly hit the cap, and everything
after it is dropped. -/
theorem rebalance_trade_cap (ts : List RTrade) (total_value pct : ℚ)
    (hpct : 0 < pct) (htv : 0 ≤ total_value) :
    sumAbsVal (rebalanceCapTrades total_value pct ts) ≤ total_value * (pct / 100) ∧
    List.Sorted (fun a b => |b.value| ≤ |a.value|) (sortTradesDesc ts) ∧
    ((∃ k, rebalanceCapTrades total_value pct ts = (sortTradesDesc ts).take k) ∨
      (∃ k r, 0 < r ∧
        rebalanceCapTrades total_value pct ts
          = (sortTradesDesc ts).take k
              ++ [scaleTrade r ((sortTradesDesc ts).getD k ⟨0, 0, 0, 0⟩)] ∧
        sumAbsVal (rebalanceCapTrades total_value pct ts) = total_value * (pct / 100))) := by
  have hcap : (0 : ℚ) ≤ total_value * (pct / 100) := by positivity
  refine ⟨?_, ?_, ?_⟩
  · have := limitTrades_sumAbs (sortTradesDesc ts) (total_value * (pct / 100)) 0 hcap
    simpa [rebalanceCapTrades] using this
  · exact List.sorted_insertionSort _ ts
  · have := limitTrades_struct (sortTradesDesc ts) (total_value * (pct / 100)) 0 hcap
    simpa [rebalanceCapTrades] using this

/-- Claim C5 witness: trades of value 60 and 50 against cap 80: the first
is taken whole, the second is scaled by 2/5 to value 20, total exactly 80. -/
theorem rebalance_trade_cap_witness :
    (0 : ℚ) < 80 ∧ (0 : ℚ) ≤ 100 ∧
      (sumAbsVal (rebalanceCapTrades 100 80 [⟨1, 10, 6, 60⟩, ⟨2, 10, 5, 50⟩])
          ≤ 100 * (80 / 100) ∧
        List.Sorted (fun a b => |b.value| ≤ |a.value|)
          (sortTradesDesc [⟨1, 10, 6, 60⟩, ⟨2, 10, 5, 50⟩]) ∧
        ((∃ k, rebalanceCapTrades 100 80 [⟨1, 10, 6, 60⟩, ⟨2, 10, 5, 50⟩]
            = (sortTradesDesc [⟨1, 10, 6, 60⟩, ⟨2, 10, 5, 50⟩]).take k) ∨
          (∃ k r, 0 < r ∧
            rebalanceCapTrades 100 80 [⟨1, 10, 6, 60⟩, ⟨2, 10, 5, 50⟩]
              = (sortTradesDesc [⟨1, 10, 6, 60⟩, ⟨2, 10, 5, 50⟩]).take k
                  ++ [scaleTrade r
                        ((sortTradesDesc [⟨1, 10, 6, 60⟩, ⟨2, 10, 5, 50⟩]).getD k
                          ⟨0, 0, 0, 0⟩)] ∧
            sumAbsVal (rebalanceCapTrades 100 80 [⟨1, 10, 6, 60⟩, ⟨2, 10, 5, 50⟩])
              = 100 * (80 / 100)))) :=
  ⟨by norm_num, by norm_num,
    rebalance_trade_cap [⟨1, 10, 6, 60⟩, ⟨2, 10, 5, 50⟩] 100 80 (by norm_num) (by norm_num)⟩

/-- Claim C9: `max_trades` of 0 (or None, or negative) applies no
truncation and `trade_limit_pct` of 0 (or None, or negative) applies no
value cap: only strictly positive values activate a cap, so a zero cap
means unlimited, not zero trades. -/
theorem caps_zero_unlimited (total_value : ℚ) (ts : List RTrade) (n : ℤ) (q : ℚ)
    (hn : n ≤ 0) (hq : q ≤ 0) :
    applyTradeCaps (some n) (some q) total_value ts = ts ∧
      applyTradeCaps none none total_value ts = ts := by
  constructor
  · simp [applyTradeCaps, not_lt.mpr hn, not_lt.mpr hq]
  · simp [applyTradeCaps]

/-- Claim C9 witness: `max_trades = 0` and `trade_limit_pct = 0` leave a
one-trade list untouched. -/
theorem caps_zero_unlimited_witness :
    (0 : ℤ) ≤ 0 ∧ (0 : ℚ) ≤ 0 ∧
      (applyTradeCaps (some 0) (some 0) 100 [⟨1, 10, 6, 60⟩] = [⟨1, 10, 6, 60⟩] ∧
        applyTradeCaps none none 100 [⟨1, 10, 6, 60⟩] = [⟨1, 10, 6, 60⟩]) :=
  ⟨le_refl 0, le_refl 0, caps_zero_unlimited 100 [⟨1, 10, 6, 60⟩] 0 0 (le_refl 0) (le_refl 0)⟩

/-! ### Lemmas: task status frame -/

theorem lookup_setField_self (m : List (String × Option FVal)) (k : String)
    (v : Option FVal) : (setField m k v).lookup k = some v := by
  induction m with
  | nil => simp [setField, List.lookup]
  | cons kv rest ih =>
    obtain ⟨k', v'⟩ := kv
    by_cases h : k' = k
    · simp [setField, h, List.lookup]
    · simp [setField, h, List.lookup, ih,
        show (k == k') = false from beq_eq_false_iff_ne.mpr (Ne.symm h)]

theorem lookup_setField_ne (m : List (String × Option FVal)) (k k' : String)
    (v : Option FVal) (h : k' ≠ k) :
    (setField m k v).lookup k' = m.lookup k' := by
  induction m with
  | nil =>
    simp [setField, List.lookup, show (k' == k) = false from beq_eq_false_iff_ne.mpr h]
  | cons kv rest ih =>
    obtain ⟨k0, v0⟩ := kv
    by_cases h0 : k0 = k
    · subst h0
      simp [setField, List.lookup, show (k' == k0) = false from beq_eq_false_iff_ne.mpr h]
    · by_cases h1 : k' = k0
      · subst h1
        simp [setField, h0, List.lookup]
      · simp [setField, h0, List.lookup, ih,
          show (k' == k0) = false from beq_eq_false_iff_ne.mpr h1]

theorem updTaskStatus_none_preserved :
    ∀ (upd existing : List (String × Option FVal)) (k : String),
      (∀ kv ∈ upd, kv.1 = k → kv.2 = none) →
      (existing.lookup k).isSome = true →
      (updTaskStatus existing upd).lookup k = existing.lookup k
  | [], _, _, _, _ => rfl
  | kv :: rest, existing, k, hupd, hex => by
    rw [updTaskStatus, List.foldl_cons]
    by_cases hk : kv.1 = k
    · have hv : kv.2 = none := hupd kv (List.mem_cons_self _ _) hk
      have hcond : ¬(kv.2.isSome = true ∨ existing.lookup kv.1 = none) := by
        rw [hv, hk]
        rcases hs : existing.lookup k with _ | w
        · rw [hs] at hex
          simp at hex
        · simp
      rw [if_neg hcond]
      exact updTaskStatus_none_preserved rest existing k
        (fun kv2 h2 => hupd kv2 (List.mem_cons_of_mem _ h2)) hex
    · by_cases hcond : (kv.2.isSome = true ∨ existing.lookup kv.1 = none)
      · rw [if_pos hcond]
        have hl : (setField existing kv.1 kv.2).lookup k = existing.lookup k :=
          lookup_setField_ne existing kv.1 k kv.2 (fun h => hk h.symm)
        exact (updTaskStatus_none_preserved rest (setField existing kv.1 kv.2) k
          (fun kv2 h2 => hupd kv2 (List.mem_cons_of_mem _ h2))
          (by rw [hl]; exact hex)).trans hl
      · rw [if_neg hcond]
        exact updTaskStatus_none_preserved rest existing k
          (fun kv2 h2 => hupd kv2 (List.mem_cons_of_mem _ h2)) hex

/-- Claim C10: `_update_task_status` leaves every already-stored field
unchanged when the incoming update carries `None` for it; in particular
the `started_at` written at task start survives the later `completed`
and `failed` updates, which pass `started_at = None`. -/
theorem taskStatus_none_frame (existing : List (String × Option FVal)) (k : String) :
    (∀ upd, (∀ kv ∈ upd, kv.1 = k → kv.2 = none) →
      (existing.lookup k).isSome = true →
      (updTaskStatus existing upd).lookup k = existing.lookup k) ∧
    ((existing.lookup "started_at").isSome = true →
      ∀ sid fin err,
        (updTaskStatus existing (completedUpd sid fin)).lookup "started_at"
            = existing.lookup "started_at" ∧
        (updTaskStatus existing (failedUpd sid fin err)).lookup "started_at"
            = existing.lookup "started_at") := by
  refine ⟨fun upd h hex => updTaskStatus_none_preserved upd existing k h hex, ?_⟩
  intro hex sid fin err
  constructor
  · refine updTaskStatus_none_preserved _ existing _ ?_ hex
    intro kv hkv
    simp only [completedUpd, List.mem_cons, List.mem_singleton] at hkv
    rcases hkv with rfl | rfl | rfl | rfl | rfl | rfl | hkv
    · intro h
      simp at h
    · intro h
      simp at h
    · intro h
      simp at h
    · intro h
      rfl
    · intro h
      simp at h
    · intro h
      rfl
    · simp at hkv
  · refine updTaskStatus_none_preserved _ existing _ ?_ hex
    intro kv hkv
    simp only [failedUpd, List.mem_cons, List.mem_singleton] at hkv
    rcases hkv with rfl | rfl | rfl | rfl | rfl | rfl | hkv
    · intro h
      simp at h
    · intro h
      simp at h
    · intro h
      simp at h
    · intro h
      rfl
    · intro h
      simp at h
    · intro h
      simp at h
    · simp at hkv

/-- Claim C10 witness: a store holding `started_at = 5` keeps that value
through a `completed` and a `failed` update. -/
theorem taskStatus_none_frame_witness :
    (updTaskStatus [("started_at", some (FVal.n 5))] (completedUpd 1 9)).lookup "started_at"
        = some (some (FVal.n 5)) ∧
      (updTaskStatus [("started_at", some (FVal.n 5))] (failedUpd 1 9 "boom")).lookup
          "started_at" = some (some (FVal.n 5)) := by
  have h := (taskStatus_none_frame [("started_at", some (FVal.n 5))] "started_at").2
    (by simp [List.lookup]) 1 9 "boom"
  have hl : ([("started_at", some (FVal.n 5))].lookup "started_at")
      = some (some (FVal.n 5)) := by simp [List.lookup]
  exact ⟨(h.1).trans hl, (h.2).trans hl⟩

/-! ### Lemmas: optimization entry validation -/

/-- Claim C4 (amended): the not-found error for assets fires exactly when
NO id in the list resolves in the store (not when merely one id is
invalid), and in that case the task status recorded for the run is
`failed`. -/
theorem runOptValidation_all_invalid {σ α : Type} (s : σ) (store : ℕ → Option α)
    (ids : List ℕ) (marketOk : Bool)
    (h : ∀ i ∈ ids, store i = none) :
    runOptValidation (some s) store ids marketOk
        = Except.error "No valid assets found for optimization" ∧
      finalTaskStatus (runOptValidation (some s) store ids marketOk) = "failed" := by
  have hempty : ids.filterMap store = [] := List.filterMap_eq_nil_iff.mpr h
  constructor
  · simp [runOptValidation, hempty]
  · simp [runOptValidation, hempty, finalTaskStatus]

/-- Claim C4 witness: every id invalid (store empty) on id list [2]. -/
theorem runOptValidation_all_invalid_witness :
    (∀ i ∈ [2], (fun _ : ℕ => (none : Option ℕ)) i = none) ∧
      (runOptValidation (some ()) (fun _ : ℕ => (none : Option ℕ)) [2] true
          = Except.error "No valid assets found for optimization" ∧
        finalTaskStatus (runOptValidation (some ()) (fun _ : ℕ => (none : Option ℕ)) [2] true)
          = "failed") :=
  ⟨by simp, runOptValidation_all_invalid () (fun _ => none) [2] true (by simp)⟩

/-- Claim C4 counterexample: with asset ids [1, 2] where only 1 is in the
store, `run_optimization` raises no not-found error at all — it proceeds
with the valid subset, although id 2 is absent. -/
theorem mixed_ids_no_error_cex :
    runOptValidation (some ()) (fun i => if i = 1 then some 7 else none) [1, 2] true
        = Except.ok [7] ∧
      (fun i => if i = 1 then some (7 : ℕ) else none) 2 = none := by
  constructor
  · simp [runOptValidation, List.filterMap_cons]
  · simp
